import Mathlib

/-!
# SecureVault cryptographic and authentication core: a shallow embedding

This file embeds the cryptographic and authentication core of the
SecureVault application (`src/utils/SecurityManager.js`,
`src/utils/SecurityManager.ts`, `src/utils/TOTPManager.ts`) in Lean 4 and
proves, or refutes, the frozen specification claims about it.

Modelling conventions:

* JavaScript byte strings (`Uint8Array` contents) are `List Nat`, each
  entry intended to lie below 256.
* JavaScript strings at the API boundary are Lean `String`; where the code
  runs a string through the platform `TextEncoder`, the model applies
  `utf8Bytes` below, a direct definition of UTF-8 (RFC 3629).  The platform
  `TextDecoder` is modelled by `utf8DecodeString`.
* The platform digest primitive `Crypto.digestStringAsync` (expo-crypto)
  is external to the repository; every function that uses it takes the
  digest as an explicit parameter `H : List Nat → List Nat` mapping the
  byte string that the code hashes to the digest bytes (the code receives
  the digest hex-encoded and immediately parses it back to bytes, so `H`
  returns the digest bytes).  SHA-256 returns 32 bytes below 256, SHA-1
  returns 20 bytes below 256; theorems that need those facts carry them as
  hypotheses.
* `Crypto.getRandomValues` (the random source) is external: fresh salts
  are passed to the model as explicit parameters.
* `expo-secure-store` is the external key-value store; it is modelled as a
  function from keys to values, with a fallible (`Except`) variant where a
  claim is about storage failure.
-/

set_option maxHeartbeats 1000000

namespace SecureVault

/-! ## UTF-8: model of the platform TextEncoder / TextDecoder -/

/-- UTF-8 encoding of a single Unicode code point (RFC 3629), the byte
sequence the platform `TextEncoder` emits for it. -/
def utf8EncodeChar (c : Nat) : List Nat :=
  if c < 128 then [c]
  else if c < 2048 then [192 + c / 64, 128 + c % 64]
  else if c < 65536 then [224 + c / 4096, 128 + c / 64 % 64, 128 + c % 64]
  else [240 + c / 262144, 128 + c / 4096 % 64, 128 + c / 64 % 64, 128 + c % 64]

/-- The byte string the platform `TextEncoder` produces for a string:
UTF-8 encoding of each of its code points in order. -/
def utf8Bytes (s : String) : List Nat :=
  s.data.flatMap (fun c => utf8EncodeChar c.toNat)

/-- UTF-8 decoding loop (model of the platform `TextDecoder`, restricted
to well-formed input: it returns `none` where the platform would
substitute U+FFFD).  The state is `none` when the next byte must be a
lead byte, and `some (acc, k)` when `k` continuation bytes are still
expected for a code point whose decoded high bits are `acc`. -/
def utf8DecodeLoop : List Nat → Option (Nat × Nat) → Option (List Nat)
  | [], none => some []
  | [], some _ => none
  | b :: bs, none =>
    if b < 128 then (utf8DecodeLoop bs none).map (b :: ·)
    else if b < 192 then none
    else if b < 224 then utf8DecodeLoop bs (some (b - 192, 1))
    else if b < 240 then utf8DecodeLoop bs (some (b - 224, 2))
    else utf8DecodeLoop bs (some (b - 240, 3))
  | b :: bs, some (acc, k) =>
    if 128 ≤ b ∧ b < 192 then
      match k with
      | 0 => none
      | 1 => (utf8DecodeLoop bs none).map ((acc * 64 + (b - 128)) :: ·)
      | k2 + 2 => utf8DecodeLoop bs (some (acc * 64 + (b - 128), k2 + 1))
    else none

/-- UTF-8 decoding to a list of code points. -/
def utf8DecodeChars (bs : List Nat) : Option (List Nat) :=
  utf8DecodeLoop bs none

/-- UTF-8 decoding to a string. -/
def utf8DecodeString (bs : List Nat) : Option String :=
  (utf8DecodeChars bs).map (fun l => ⟨l.map Char.ofNat⟩)

theorem utf8DecodeChars_encodeChar_append (c : Nat) (hc : c < 1114112) (bs : List Nat) :
    utf8DecodeChars (utf8EncodeChar c ++ bs) = (utf8DecodeChars bs).map (c :: ·) := by
  unfold utf8DecodeChars utf8EncodeChar
  split_ifs with h1 h2 h3
  · rw [List.cons_append, utf8DecodeLoop, if_pos h1, List.nil_append]
  · rw [List.cons_append, List.cons_append, utf8DecodeLoop,
      if_neg (by omega), if_neg (by omega), if_pos (by omega),
      utf8DecodeLoop, if_pos (by omega)]
    have he : (192 + c / 64 - 192) * 64 + (128 + c % 64 - 128) = c := by omega
    rw [he, List.nil_append]
  · rw [List.cons_append, List.cons_append, List.cons_append, utf8DecodeLoop,
      if_neg (by omega), if_neg (by omega), if_neg (by omega), if_pos (by omega),
      utf8DecodeLoop, if_pos (by omega),
      utf8DecodeLoop, if_pos (by omega)]
    have he : ((224 + c / 4096 - 224) * 64 + (128 + c / 64 % 64 - 128)) * 64 +
        (128 + c % 64 - 128) = c := by omega
    rw [he, List.nil_append]
  · rw [List.cons_append, List.cons_append, List.cons_append, List.cons_append,
      utf8DecodeLoop,
      if_neg (by omega), if_neg (by omega), if_neg (by omega), if_neg (by omega),
      utf8DecodeLoop, if_pos (by omega),
      utf8DecodeLoop, if_pos (by omega),
      utf8DecodeLoop, if_pos (by omega)]
    have he : (((240 + c / 262144 - 240) * 64 + (128 + c / 4096 % 64 - 128)) * 64 +
        (128 + c / 64 % 64 - 128)) * 64 + (128 + c % 64 - 128) = c := by omega
    rw [he, List.nil_append]

theorem utf8DecodeChars_flatMap (cs : List Nat) (h : ∀ c ∈ cs, c < 1114112) :
    utf8DecodeChars (cs.flatMap utf8EncodeChar) = some cs := by
  induction cs with
  | nil => rfl
  | cons c cs ih =>
    rw [List.flatMap_cons,
      utf8DecodeChars_encodeChar_append c (h c (List.mem_cons_self c cs)) _,
      ih (fun x hx => h x (List.mem_cons_of_mem c hx))]
    rfl

/-- Every code point of a character is below 0x110000. -/
theorem char_toNat_lt (c : Char) : c.toNat < 1114112 := by
  have h := c.valid
  unfold UInt32.isValidChar Nat.isValidChar at h
  have hv : c.toNat = c.val.toNat := rfl
  rcases h with h | ⟨h1, h2⟩ <;> omega

theorem utf8DecodeString_utf8Bytes (s : String) :
    utf8DecodeString (utf8Bytes s) = some s := by
  have h1 : utf8Bytes s = (s.data.map Char.toNat).flatMap utf8EncodeChar := by
    rw [utf8Bytes, List.flatMap_map]
  have h2 : utf8DecodeChars ((s.data.map Char.toNat).flatMap utf8EncodeChar) =
      some (s.data.map Char.toNat) := by
    apply utf8DecodeChars_flatMap
    intro c hc
    rcases List.mem_map.mp hc with ⟨ch, _, rfl⟩
    exact char_toNat_lt ch
  rw [utf8DecodeString, h1, h2]
  have h3 : (s.data.map Char.toNat).map Char.ofNat = s.data := by
    rw [List.map_map, show Char.ofNat ∘ Char.toNat = id from funext Char.ofNat_toNat,
      List.map_id]
  simp [h3]

/-- Every byte produced by the UTF-8 encoder is below 256. -/
theorem utf8EncodeChar_lt_256 (c : Nat) (hc : c < 1114112) :
    ∀ b ∈ utf8EncodeChar c, b < 256 := by
  intro b hb
  unfold utf8EncodeChar at hb
  split_ifs at hb <;> simp_all <;> omega

theorem utf8Bytes_lt_256 (s : String) : ∀ b ∈ utf8Bytes s, b < 256 := by
  intro b hb
  rcases List.mem_flatMap.mp hb with ⟨c, _, hc⟩
  exact utf8EncodeChar_lt_256 c.toNat (char_toNat_lt c) b hc

/-- UTF-16 code units of a string as the JS `charCodeAt` sees them,
restricted to strings of basic-plane characters (every string this
module stores or compares is ASCII). -/
def stringCodes (s : String) : List Nat :=
  s.data.map Char.toNat

/-! ## CryptoUtils (`src/utils/SecurityManager.js`, class `CryptoUtils`) -/

namespace CryptoUtils

/-- The digest primitive is well behaved: every digest byte is below 256
(true of the hex-decoded output of `Crypto.digestStringAsync`). -/
def DigestBytesOk (H : List Nat → List Nat) : Prop :=
  ∀ bs, ∀ b ∈ H bs, b < 256

/-- The digest primitive returns 32-byte digests (SHA-256). -/
def DigestLen32 (H : List Nat → List Nat) : Prop :=
  ∀ bs, (H bs).length = 32

/-- Char code of one hex digit, as produced by the JS
`b.toString(16)` for a digit value below 16 (lowercase hex). -/
def jsHexDigit (n : Nat) : Nat :=
  if n < 10 then 48 + n else 87 + n

/-- Hex encoding of a byte list, as char codes: model of
`.map(b => b.toString(16).padStart(2, 0)).join()` for bytes below 256. -/
def hexCodes (bs : List Nat) : List Nat :=
  bs.flatMap (fun b => [jsHexDigit (b / 16), jsHexDigit (b % 16)])

/-- The digest iteration loop of `deriveKey`: `iterations` rounds of
`derived = digest(derived)`. -/
def iterHash (H : List Nat → List Nat) : Nat → List Nat → List Nat
  | 0, d => d
  | n + 1, d => iterHash H n (H d)

/-- `CryptoUtils.deriveKey`: seed the buffer with the concatenated
UTF-8 bytes of password and salt (the arguments here are those byte
lists), iterate the digest, take the first `keyLength` bytes and hex
encode them.  The result is the char-code list of the returned hex
string. -/
def deriveKey (H : List Nat → List Nat) (passwordData saltData : List Nat)
    (iterations keyLength : Nat) : List Nat :=
  hexCodes ((iterHash H iterations (passwordData ++ saltData)).take keyLength)

/-- The XOR combine of `encrypt` and `decrypt`:
`bytes.map((byte, i) => byte ^ key[i % key.length])`, with the result
stored back into a `Uint8Array` (hence the `% 256`); an out-of-range
key index reads as 0, as the JS bitwise coercion of `undefined` does. -/
def xorEncrypt (data key : List Nat) : List Nat :=
  data.enum.map (fun p => (p.2 ^^^ key.getD (p.1 % key.length) 0) % 256)

/-- The `{encrypted, salt}` envelope of `CryptoUtils.encrypt`
(the `EncryptionResult` interface); `encrypted` holds the raw cipher
bytes, whose base64 transport encoding (`btoa` / `atob`) is an external
bijective codec and is left out of the model. -/
structure EncryptionResult where
  encrypted : List Nat
  salt : String
deriving DecidableEq, Repr

/-- Salt defaulting of `encrypt` and `hashPassword`: `if (!salt) salt =
this.generateSalt()`.  The empty string is falsy in JS, and the random
salt the code would generate is passed in as `freshSalt`. -/
def resolveSalt (saltArg : Option String) (freshSalt : String) : String :=
  match saltArg with
  | some s => if s.isEmpty then freshSalt else s
  | none => freshSalt

/-- Byte-level core of `CryptoUtils.encrypt`: derive the key from the
password and salt (default iterations 10000, key length 32) and XOR the
plaintext bytes with the UTF-8 bytes of the hex key string (which are
exactly its char codes). -/
def encryptBytes (H : List Nat → List Nat) (textBytes : List Nat)
    (password salt : String) : EncryptionResult :=
  let key := deriveKey H (utf8Bytes password) (utf8Bytes salt) 10000 32
  { encrypted := xorEncrypt textBytes key, salt := salt }

/-- `CryptoUtils.encrypt(text, password, salt?)`. -/
def encrypt (H : List Nat → List Nat) (text password : String)
    (saltArg : Option String) (freshSalt : String) : EncryptionResult :=
  encryptBytes H (utf8Bytes text) password (resolveSalt saltArg freshSalt)

/-- Byte-level core of `CryptoUtils.decrypt`: re-derive the key from
the password and the salt carried in the envelope and XOR the cipher
bytes with it. -/
def decryptBytes (H : List Nat → List Nat) (res : EncryptionResult)
    (password : String) : List Nat :=
  let key := deriveKey H (utf8Bytes password) (utf8Bytes res.salt) 10000 32
  xorEncrypt res.encrypted key

/-- `CryptoUtils.decrypt(encryptedData, password)`: decode the XOR
result through the platform `TextDecoder`. -/
def decrypt (H : List Nat → List Nat) (res : EncryptionResult)
    (password : String) : Option String :=
  utf8DecodeString (decryptBytes H res password)

/-- The `{hash, salt}` record of `CryptoUtils.hashPassword`; `hash`
holds the char codes of the returned hex string. -/
structure PasswordHashResult where
  hash : List Nat
  salt : String
deriving DecidableEq, Repr

/-- `CryptoUtils.hashPassword(password, salt?)`: derive with 10000
iterations and requested key length 64. -/
def hashPassword (H : List Nat → List Nat) (password : String)
    (saltArg : Option String) (freshSalt : String) : PasswordHashResult :=
  let salt := resolveSalt saltArg freshSalt
  { hash := deriveKey H (utf8Bytes password) (utf8Bytes salt) 10000 64, salt := salt }

/-- `CryptoUtils.verifyPassword(password, storedHash, salt)`: recompute
and compare (`hash === storedHash`). -/
def verifyPassword (H : List Nat → List Nat)
    (password storedHash salt : String) (freshSalt : String) : Bool :=
  (hashPassword H password (some salt) freshSalt).hash == stringCodes storedHash

/-! ### Lemmas about the key derivation and the XOR layer -/

theorem iterHash_image (H : List Nat → List Nat) :
    ∀ n, 1 ≤ n → ∀ d, ∃ y, iterHash H n d = H y := by
  intro n
  induction n with
  | zero => omega
  | succ n ih =>
    intro _ d
    by_cases h : 1 ≤ n
    · exact ih h (H d)
    · have hn : n = 0 := by omega
      subst hn
      exact ⟨d, rfl⟩

theorem jsHexDigit_lt_256 (n : Nat) (h : n < 16) : jsHexDigit n < 256 := by
  unfold jsHexDigit
  split_ifs <;> omega

theorem hexCodes_mem_lt_256 (bs : List Nat) (h : ∀ b ∈ bs, b < 256) :
    ∀ x ∈ hexCodes bs, x < 256 := by
  intro x hx
  rcases List.mem_flatMap.mp hx with ⟨b, hb, hxb⟩
  have hb256 := h b hb
  simp only [List.mem_cons, List.not_mem_nil, or_false] at hxb
  rcases hxb with rfl | rfl
  · exact jsHexDigit_lt_256 _ (by omega)
  · exact jsHexDigit_lt_256 _ (by omega)

theorem hexCodes_length (bs : List Nat) : (hexCodes bs).length = 2 * bs.length := by
  induction bs with
  | nil => rfl
  | cons b bs ih => simp [hexCodes, List.flatMap_cons] at ih ⊢; omega

theorem deriveKey_mem_lt_256 (H : List Nat → List Nat) (hH : DigestBytesOk H)
    (p s : List Nat) (iterations keyLength : Nat) (hiter : 1 ≤ iterations) :
    ∀ x ∈ deriveKey H p s iterations keyLength, x < 256 := by
  intro x hx
  rcases iterHash_image H iterations hiter (p ++ s) with ⟨y, hy⟩
  apply hexCodes_mem_lt_256 _ _ x hx
  intro b hb
  exact hH y b (hy ▸ List.mem_of_mem_take hb)

theorem deriveKey_length (H : List Nat → List Nat) (hH : DigestLen32 H)
    (p s : List Nat) (iterations keyLength : Nat) (hiter : 1 ≤ iterations) :
    (deriveKey H p s iterations keyLength).length = 2 * min keyLength 32 := by
  rcases iterHash_image H iterations hiter (p ++ s) with ⟨y, hy⟩
  rw [deriveKey, hexCodes_length, hy, List.length_take, hH y]

theorem getD_lt_256 : ∀ (l : List Nat) (i : Nat), (∀ b ∈ l, b < 256) →
    l.getD i 0 < 256
  | [], i, _ => by simp [List.getD]
  | a :: l, 0, h => by
    simpa [List.getD] using h a (List.mem_cons_self a l)
  | a :: l, i + 1, h => by
    simpa [List.getD] using
      getD_lt_256 l i (fun b hb => h b (List.mem_cons_of_mem a hb))

theorem xor_lt_256 {a b : Nat} (ha : a < 256) (hb : b < 256) : a ^^^ b < 256 := by
  have h := Nat.bitwise_lt_two_pow (f := bne) (n := 8) (x := a) (y := b)
    (by omega) (by omega)
  simpa using h

theorem xorEncrypt_length (data key : List Nat) :
    (xorEncrypt data key).length = data.length := by
  simp [xorEncrypt]

theorem xorEncrypt_xorEncrypt (data key : List Nat)
    (hd : ∀ b ∈ data, b < 256) (hk : ∀ b ∈ key, b < 256) :
    xorEncrypt (xorEncrypt data key) key = data := by
  apply List.ext_getElem
  · simp [xorEncrypt]
  · intro i h1 h2
    have hi : i < data.length := h2
    have hget : ∀ (l : List Nat) (j : Nat) (hj : j < l.length)
        (hj2 : j < (xorEncrypt l key).length),
        (xorEncrypt l key)[j] = (l[j] ^^^ key.getD (j % key.length) 0) % 256 := by
      intro l j hj hj2
      simp [xorEncrypt]
    have hi1 : i < (xorEncrypt data key).length := by
      simpa [xorEncrypt_length] using hi
    rw [hget (xorEncrypt data key) i hi1 h1, hget data i hi hi1]
    have hkij : key.getD (i % key.length) 0 < 256 := getD_lt_256 key _ hk
    have hdi : data[i] < 256 := hd _ (List.getElem_mem hi)
    have hx1 : data[i] ^^^ key.getD (i % key.length) 0 < 256 :=
      xor_lt_256 hdi hkij
    rw [Nat.mod_eq_of_lt hx1, Nat.xor_cancel_right, Nat.mod_eq_of_lt hdi]

/-- Decrypting an encryption with the same password restores the
plaintext bytes and hence the plaintext string. -/
theorem decrypt_encrypt_roundtrip (H : List Nat → List Nat) (hH : DigestBytesOk H)
    (text password : String) (saltArg : Option String) (freshSalt : String) :
    decrypt H (encrypt H text password saltArg freshSalt) password = some text := by
  show utf8DecodeString (xorEncrypt (xorEncrypt (utf8Bytes text) _) _) = some text
  have hsalt : (encrypt H text password saltArg freshSalt).salt =
      resolveSalt saltArg freshSalt := rfl
  rw [hsalt, xorEncrypt_xorEncrypt _ _ (utf8Bytes_lt_256 text)
    (deriveKey_mem_lt_256 H hH _ _ _ _ (by omega))]
  exact utf8DecodeString_utf8Bytes text

end CryptoUtils

/-- A concrete stand-in digest used by witnesses: a constant 32-byte
output, satisfying the shape assumptions made about SHA-256. -/
def constDigest32 : List Nat → List Nat := fun _ => List.replicate 32 7

theorem constDigest32_bytesOk : CryptoUtils.DigestBytesOk constDigest32 := by
  intro bs b hb
  simp only [constDigest32, List.mem_replicate] at hb
  omega

theorem constDigest32_len32 : CryptoUtils.DigestLen32 constDigest32 := by
  intro bs
  simp [constDigest32]

/-- C1: For every string P (including the empty string and strings
containing multi-byte Unicode) and every password pw, decrypting the
result of `CryptoUtils.encrypt(P, pw)` with the same password pw
returns exactly P, for any digest primitive whose output bytes are
bytes (as the hex-decoded SHA-256 digests are), any optional salt
argument and any freshly generated salt. -/
theorem claim_C1 (H : List Nat → List Nat) (hH : CryptoUtils.DigestBytesOk H)
    (P password : String) (saltArg : Option String) (freshSalt : String) :
    CryptoUtils.decrypt H (CryptoUtils.encrypt H P password saltArg freshSalt)
      password = some P :=
  CryptoUtils.decrypt_encrypt_roundtrip H hH P password saltArg freshSalt

/-- Witness for C1 at a concrete plaintext that mixes 1-, 2-, 3- and
4-byte UTF-8 characters, a concrete password and salt. -/
theorem claim_C1_witness :
    CryptoUtils.decrypt constDigest32
      (CryptoUtils.encrypt constDigest32 "a∀é𝄞" "hunter2" none "SALTSALT")
      "hunter2" = some "a∀é𝄞" :=
  claim_C1 constDigest32 constDigest32_bytesOk "a∀é𝄞" "hunter2" none "SALTSALT"

/-- C2 counterexample: the claim states that `deriveKey` returns key
bytes of length `outputLength` even beyond the 32-byte digest size; at
`outputLength = 64` (one hex char code per half byte, so the claimed
hex string length is 128) the code returns only 32 bytes (64 hex
chars).  Evaluated here at iteration count 1 with a digest of the
SHA-256 output shape. -/
theorem claim_C2_counterexample :
    ¬ (CryptoUtils.deriveKey constDigest32 [] [] 1 64).length = 2 * 64 := by
  decide

/-- C2 (amended): for every digest primitive with 32-byte output
(SHA-256), every password, salt, iteration count ≥ 1 and
outputLength ≥ 1, `deriveKey` returns the hex encoding of
`min outputLength 32` bytes — the output is truncated to the digest
size, never extended; in particular `hashPassword`, which requests 64,
stores a hash of 32 bytes (64 hex chars). -/
theorem claim_C2 (H : List Nat → List Nat) (hH : CryptoUtils.DigestLen32 H)
    (p s : List Nat) (iterations keyLength : Nat)
    (hiter : 1 ≤ iterations) (_hkey : 1 ≤ keyLength) :
    (CryptoUtils.deriveKey H p s iterations keyLength).length =
        2 * min keyLength 32 ∧
      ∀ (password : String) (saltArg : Option String) (freshSalt : String),
        (CryptoUtils.hashPassword H password saltArg freshSalt).hash.length = 64 := by
  constructor
  · exact CryptoUtils.deriveKey_length H hH p s iterations keyLength hiter
  · intro password saltArg freshSalt
    have h := CryptoUtils.deriveKey_length H hH (utf8Bytes password)
      (utf8Bytes (CryptoUtils.resolveSalt saltArg freshSalt)) 10000 64 (by omega)
    simpa [CryptoUtils.hashPassword] using h

/-! ## A JSON codec for arrays of strings

`AuthenticationManager` serializes recovery codes with the platform
`JSON.stringify` and reads them back with `JSON.parse`.  The only
values it serializes are arrays of strings whose characters are
printable ASCII without `"` or `\`, so the codec below models the
platform pair exactly on that fragment, at the byte level (code 34 is
the double quote, 44 the comma, 91 and 93 the brackets). -/

/-- The comma-and-quote join of `JSON.stringify` for a string array
body. -/
def jsonJoin : List (List Nat) → List Nat
  | [] => []
  | [s] => 34 :: (s ++ [34])
  | s :: s2 :: rest => 34 :: (s ++ [34]) ++ 44 :: jsonJoin (s2 :: rest)

/-- `JSON.stringify` on an array of plain strings. -/
def jsonEncodeStrings (l : List (List Nat)) : List Nat :=
  91 :: (jsonJoin l ++ [93])

/-- Parse one double-quoted string, returning it with the rest of the
input. -/
def parseJsonString : List Nat → Option (List Nat × List Nat)
  | 34 :: rest =>
    match rest.dropWhile (· ≠ 34) with
    | 34 :: r2 => some (rest.takeWhile (· ≠ 34), r2)
    | _ => none
  | _ => none

/-- Parse a nonempty comma-separated sequence of quoted strings. -/
def parseJsonElems : Nat → List Nat → Option (List (List Nat) × List Nat)
  | 0, _ => none
  | fuel + 1, bs =>
    match parseJsonString bs with
    | none => none
    | some (s, rest) =>
      match rest with
      | 44 :: rest2 =>
        match parseJsonElems fuel rest2 with
        | some (l, r) => some (s :: l, r)
        | none => none
      | _ => some ([s], rest)

/-- `JSON.parse` on the string-array fragment: either the empty array
or a bracketed nonempty sequence of quoted strings consuming the whole
input. -/
def jsonDecodeStrings (bs : List Nat) : Option (List (List Nat)) :=
  match bs with
  | 91 :: rest =>
    if rest = [93] then some []
    else
      match parseJsonElems rest.length rest with
      | some (l, [93]) => some l
      | _ => none
  | _ => none

theorem takeWhile_dropWhile_quote (rest : List Nat) :
    ∀ (s : List Nat), 34 ∉ s →
      (s ++ 34 :: rest).takeWhile (· ≠ 34) = s ∧
        (s ++ 34 :: rest).dropWhile (· ≠ 34) = 34 :: rest := by
  intro s
  induction s with
  | nil =>
    intro _
    constructor <;> simp
  | cons a s ih =>
    intro h
    simp only [List.mem_cons, not_or] at h
    obtain ⟨h1, h2⟩ := h
    have ih2 := ih h2
    have hpa : (fun x => decide (x ≠ 34)) a = true := by
      simp
      exact fun hc => h1 hc.symm
    constructor
    · rw [List.cons_append,
        List.takeWhile_cons_of_pos (p := fun x => decide (x ≠ 34)) hpa, ih2.1]
    · rw [List.cons_append,
        List.dropWhile_cons (p := fun x => decide (x ≠ 34)), if_pos hpa, ih2.2]

theorem parseJsonString_quoted (s rest : List Nat) (h : 34 ∉ s) :
    parseJsonString (34 :: (s ++ 34 :: rest)) = some (s, rest) := by
  have ht := takeWhile_dropWhile_quote rest s h
  rw [parseJsonString, ht.2, ht.1]

theorem jsonJoin_cons_head (s : List Nat) (t : List (List Nat)) :
    ∃ tl, jsonJoin (s :: t) = 34 :: tl := by
  cases t with
  | nil => exact ⟨s ++ [34], by rw [jsonJoin]⟩
  | cons s2 t2 =>
    exact ⟨(s ++ [34]) ++ 44 :: jsonJoin (s2 :: t2), by rw [jsonJoin]; simp⟩

theorem jsonJoin_length_ge : ∀ l : List (List Nat), l.length ≤ (jsonJoin l).length := by
  intro l
  induction l with
  | nil => simp [jsonJoin]
  | cons s t ih =>
    cases t with
    | nil => simp [jsonJoin]
    | cons s2 t2 =>
      rw [jsonJoin]
      simp only [List.length_cons, List.length_append] at ih ⊢
      omega

theorem parseJsonElems_jsonJoin :
    ∀ (l : List (List Nat)), (∀ s ∈ l, 34 ∉ s) → l ≠ [] →
      ∀ fuel : Nat, l.length ≤ fuel →
        parseJsonElems fuel (jsonJoin l ++ [93]) = some (l, [93]) := by
  intro l
  induction l with
  | nil => intro _ h; exact absurd rfl h
  | cons s t ih =>
    intro h _ fuel hf
    match fuel, hf with
    | fuel + 1, hf =>
      have hs : 34 ∉ s := h s (List.mem_cons_self s t)
      cases t with
      | nil =>
        have hshape : jsonJoin [s] ++ [93] = 34 :: (s ++ 34 :: [93]) := by
          rw [jsonJoin]; simp
        rw [hshape, parseJsonElems, parseJsonString_quoted s [93] hs]
      | cons s2 t2 =>
        have hshape : jsonJoin (s :: s2 :: t2) ++ [93] =
            34 :: (s ++ 34 :: (44 :: (jsonJoin (s2 :: t2) ++ [93]))) := by
          rw [jsonJoin]; simp
        have hih := ih (fun x hx => h x (List.mem_cons_of_mem s hx)) (by simp)
          fuel (by simp at hf ⊢; omega)
        rw [hshape, parseJsonElems, parseJsonString_quoted s _ hs]
        simp only [hih]

theorem jsonDecode_encode (l : List (List Nat)) (h : ∀ s ∈ l, 34 ∉ s) :
    jsonDecodeStrings (jsonEncodeStrings l) = some l := by
  cases l with
  | nil => rfl
  | cons s t =>
    rcases jsonJoin_cons_head s t with ⟨tl, htl⟩
    have hlen : (s :: t).length ≤ (jsonJoin (s :: t) ++ [93]).length := by
      have := jsonJoin_length_ge (s :: t)
      simp only [List.length_append] at *
      omega
    have hparse := parseJsonElems_jsonJoin (s :: t) h (by simp)
      ((jsonJoin (s :: t) ++ [93]).length) hlen
    rw [jsonEncodeStrings]
    rw [htl] at hparse ⊢
    simp only [List.cons_append] at hparse ⊢
    rw [jsonDecodeStrings]
    rw [if_neg (by simp)]
    simp only [List.length_cons] at hparse ⊢
    rw [hparse]

/-- Every byte of the JSON encoding of a batch of byte-bounded codes is
a byte. -/
theorem jsonJoin_lt_256 :
    ∀ l : List (List Nat), (∀ c ∈ l, ∀ b ∈ c, b < 256) →
      ∀ b ∈ jsonJoin l, b < 256 := by
  intro l
  induction l with
  | nil => intro _ b hb; simp [jsonJoin] at hb
  | cons s t ih =>
    intro h b hb
    have hs := h s (List.mem_cons_self s t)
    cases t with
    | nil =>
      rw [jsonJoin] at hb
      simp only [List.mem_cons, List.mem_append, List.not_mem_nil, or_false] at hb
      rcases hb with rfl | hb | rfl
      · omega
      · exact hs b hb
      · omega
    | cons s2 t2 =>
      rw [jsonJoin] at hb
      have hrec := ih (fun c hc => h c (List.mem_cons_of_mem s hc))
      simp only [List.mem_cons, List.mem_append, List.not_mem_nil, or_false] at hb
      by_cases hbs : b ∈ s
      · exact hs b hbs
      by_cases hbt : b ∈ jsonJoin (s2 :: t2)
      · exact hrec b hbt
      · simp only [hbs, hbt, or_false, false_or] at hb
        omega

theorem jsonEncodeStrings_lt_256 (l : List (List Nat))
    (h : ∀ c ∈ l, ∀ b ∈ c, b < 256) :
    ∀ b ∈ jsonEncodeStrings l, b < 256 := by
  intro b hb
  rw [jsonEncodeStrings] at hb
  simp only [List.mem_cons, List.mem_append, List.not_mem_nil, or_false] at hb
  rcases hb with rfl | hb | rfl
  · omega
  · exact jsonJoin_lt_256 l h b hb
  · omega

/-- Byte-level decryption inverts byte-level encryption under the same
password and the enveloped salt. -/
theorem decryptBytes_encryptBytes (H : List Nat → List Nat)
    (hH : CryptoUtils.DigestBytesOk H) (textBytes : List Nat)
    (htb : ∀ b ∈ textBytes, b < 256) (password salt : String) :
    CryptoUtils.decryptBytes H (CryptoUtils.encryptBytes H textBytes password salt)
      password = textBytes := by
  show CryptoUtils.xorEncrypt (CryptoUtils.xorEncrypt textBytes _) _ = textBytes
  exact CryptoUtils.xorEncrypt_xorEncrypt _ _ htb
    (CryptoUtils.deriveKey_mem_lt_256 H hH _ _ _ _ (by omega))

/-! ## AuthenticationManager: recovery codes
(`src/utils/SecurityManager.js`, class `AuthenticationManager`) -/

namespace AuthenticationManager

/-- The stored `TwoFAConfig` record.  Its JSON round trip through the
key-value store is the identity on records and is left out of the
model; `encryptedRecoveryCodes` holds one envelope per entry. -/
structure TwoFAConfig where
  enabled : Bool
  encryptedSecret : CryptoUtils.EncryptionResult
  encryptedRecoveryCodes : List CryptoUtils.EncryptionResult
  algorithm : String
  digits : Nat
  period : Nat
  setupDate : String
  deviceId : String
deriving DecidableEq, Repr

/-- The legacy loop of `verifyRecoveryCode`: decrypt each individually
encrypted code, compare with the candidate, and on the first match
remove that entry (`splice(i, 1)`); a decryption failure is skipped
(`continue`).  Returns the reduced list on a match, `none` otherwise. -/
def legacyConsume (H : List Nat → List Nat) (pw : String) (provided : List Nat) :
    List CryptoUtils.EncryptionResult → Option (List CryptoUtils.EncryptionResult)
  | [] => none
  | blob :: rest =>
    if CryptoUtils.decryptBytes H blob pw = provided then some rest
    else (legacyConsume H pw provided rest).map (blob :: ·)

/-- `AuthenticationManager.verifyRecoveryCode(providedCode,
masterPassword)`.  `provided` is the byte string of the candidate code;
`store` holds the parsed `twoFactorConfig` record, or `none` when the
store has no such key; `freshSalt` is the salt the random source would
supply for the re-encryption.  A list of exactly one envelope is
treated as the batch format (one encrypted JSON array of codes), any
other length as the legacy format (one envelope per code; zero
envelopes make the legacy loop return false immediately).  Returns the
result together with the store after the call. -/
def verifyRecoveryCode (H : List Nat → List Nat)
    (masterPassword deviceId : String) (provided : List Nat)
    (freshSalt : String) (store : Option TwoFAConfig) :
    Bool × Option TwoFAConfig :=
  match store with
  | none => (false, none)
  | some config =>
    let pw := masterPassword ++ deviceId ++ "RECOVERY_CODE_SALT"
    match config.encryptedRecoveryCodes with
    | [blob] =>
      match jsonDecodeStrings (CryptoUtils.decryptBytes H blob pw) with
      | none => (false, some config)
      | some recoveryCodes =>
        if provided ∈ recoveryCodes then
          let codeIndex := recoveryCodes.indexOf provided
          let updated := recoveryCodes.eraseIdx codeIndex
          let reEncrypted :=
            CryptoUtils.encryptBytes H (jsonEncodeStrings updated) pw freshSalt
          (true, some { config with encryptedRecoveryCodes := [reEncrypted] })
        else (false, some config)
    | [] => (false, some config)
    | blob :: blob2 :: blobs =>
      match legacyConsume H pw provided (blob :: blob2 :: blobs) with
      | some updatedBlobs =>
        (true, some { config with encryptedRecoveryCodes := updatedBlobs })
      | none => (false, some config)

/-- Well-formed recovery codes: printable ASCII without the quote and
backslash characters (as the generated 8-char uppercase alphanumeric
codes are), the fragment on which the JSON codec models the platform
one. -/
abbrev CodeWf (c : List Nat) : Prop :=
  ∀ b ∈ c, 32 ≤ b ∧ b < 127 ∧ b ≠ 34 ∧ b ≠ 92

/-- Behaviour of `verifyRecoveryCode` on a batch-format store. -/
theorem verifyRecoveryCode_batch (H : List Nat → List Nat)
    (hH : CryptoUtils.DigestBytesOk H) (mp dev fresh s0 : String)
    (codes : List (List Nat)) (hwf : ∀ c ∈ codes, CodeWf c)
    (cfg : TwoFAConfig)
    (hcfg : cfg.encryptedRecoveryCodes =
      [CryptoUtils.encryptBytes H (jsonEncodeStrings codes)
        (mp ++ dev ++ "RECOVERY_CODE_SALT") s0])
    (provided : List Nat) :
    verifyRecoveryCode H mp dev provided fresh (some cfg) =
      if provided ∈ codes then
        (true, some { cfg with encryptedRecoveryCodes :=
          [CryptoUtils.encryptBytes H (jsonEncodeStrings (codes.erase provided))
            (mp ++ dev ++ "RECOVERY_CODE_SALT") fresh] })
      else (false, some cfg) := by
  have hbytes : ∀ b ∈ jsonEncodeStrings codes, b < 256 :=
    jsonEncodeStrings_lt_256 codes
      (fun c hc b hb => ((hwf c hc) b hb).2.1.trans (by omega))
  have hdec : CryptoUtils.decryptBytes H
      (CryptoUtils.encryptBytes H (jsonEncodeStrings codes)
        (mp ++ dev ++ "RECOVERY_CODE_SALT") s0)
      (mp ++ dev ++ "RECOVERY_CODE_SALT") = jsonEncodeStrings codes :=
    decryptBytes_encryptBytes H hH _ hbytes _ _
  have hjson : jsonDecodeStrings (jsonEncodeStrings codes) = some codes :=
    jsonDecode_encode codes
      (fun s hs hmem => (((hwf s hs) 34 hmem).2.2.1 rfl))
  simp only [verifyRecoveryCode, hcfg, hdec, hjson, List.eraseIdx_indexOf_eq_erase]

end AuthenticationManager

/-- C6 (amended): on a batch-format store, consuming a candidate that
matches a stored code succeeds and persists the batch with the first
matching entry removed (unconditionally); provided the batch held no
duplicate of that code, a second consume of the same code then fails;
and consuming a candidate that matches no stored code fails and leaves
the store unchanged. -/
theorem claim_C6 (H : List Nat → List Nat) (hH : CryptoUtils.DigestBytesOk H)
    (mp dev fresh fresh2 s0 : String) (codes : List (List Nat))
    (hwf : ∀ c ∈ codes, AuthenticationManager.CodeWf c)
    (cfg : AuthenticationManager.TwoFAConfig)
    (hcfg : cfg.encryptedRecoveryCodes =
      [CryptoUtils.encryptBytes H (jsonEncodeStrings codes)
        (mp ++ dev ++ "RECOVERY_CODE_SALT") s0])
    (provided : List Nat) :
    (provided ∈ codes →
      AuthenticationManager.verifyRecoveryCode H mp dev provided fresh (some cfg) =
        (true, some { cfg with encryptedRecoveryCodes :=
          [CryptoUtils.encryptBytes H (jsonEncodeStrings (codes.erase provided))
            (mp ++ dev ++ "RECOVERY_CODE_SALT") fresh] })) ∧
    (provided ∈ codes → codes.count provided ≤ 1 →
      AuthenticationManager.verifyRecoveryCode H mp dev provided fresh2
        (some { cfg with encryptedRecoveryCodes :=
          [CryptoUtils.encryptBytes H (jsonEncodeStrings (codes.erase provided))
            (mp ++ dev ++ "RECOVERY_CODE_SALT") fresh] }) =
        (false, some { cfg with encryptedRecoveryCodes :=
          [CryptoUtils.encryptBytes H (jsonEncodeStrings (codes.erase provided))
            (mp ++ dev ++ "RECOVERY_CODE_SALT") fresh] })) ∧
    (provided ∉ codes →
      AuthenticationManager.verifyRecoveryCode H mp dev provided fresh (some cfg) =
        (false, some cfg)) := by
  have hbatch := AuthenticationManager.verifyRecoveryCode_batch H hH mp dev fresh s0
    codes hwf cfg hcfg provided
  refine ⟨fun hmem => ?_, fun hmem hdup => ?_, fun hmem => ?_⟩
  · rw [if_pos hmem] at hbatch
    exact hbatch
  · have hwf2 : ∀ c ∈ codes.erase provided, AuthenticationManager.CodeWf c :=
      fun c hc => hwf c (List.mem_of_mem_erase hc)
    have hbatch2 := AuthenticationManager.verifyRecoveryCode_batch H hH mp dev fresh2
      fresh (codes.erase provided) hwf2
      { cfg with encryptedRecoveryCodes :=
        [CryptoUtils.encryptBytes H (jsonEncodeStrings (codes.erase provided))
          (mp ++ dev ++ "RECOVERY_CODE_SALT") fresh] } rfl provided
    have hnomem : provided ∉ codes.erase provided := by
      rw [← List.count_eq_zero, List.count_erase_self]
      omega
    rw [if_neg hnomem] at hbatch2
    exact hbatch2
  · rw [if_neg hmem] at hbatch
    exact hbatch

/-- Concrete recovery codes used by witnesses ("ABCDEFGH" and
"KLMNOPQR" as byte strings). -/
def sampleCode1 : List Nat := [65, 66, 67, 68, 69, 70, 71, 72]

def sampleCode2 : List Nat := [75, 76, 77, 78, 79, 80, 81, 82]

/-- A concrete batch-format `twoFactorConfig` holding two distinct
codes. -/
def cfgBatch2 : AuthenticationManager.TwoFAConfig :=
  { enabled := true
    encryptedSecret := { encrypted := [], salt := "" }
    encryptedRecoveryCodes :=
      [CryptoUtils.encryptBytes constDigest32
        (jsonEncodeStrings [sampleCode1, sampleCode2])
        ("p" ++ "d" ++ "RECOVERY_CODE_SALT") "S"]
    algorithm := "SHA1"
    digits := 6
    period := 30
    setupDate := ""
    deviceId := "d" }

/-- Witness for C6: consuming "ABCDEFGH" from a concrete two-code batch
succeeds and removes it, and a second consume of the same code fails. -/
theorem claim_C6_witness :
    AuthenticationManager.verifyRecoveryCode constDigest32 "p" "d" sampleCode1 "F"
        (some cfgBatch2) =
      (true, some { cfgBatch2 with encryptedRecoveryCodes :=
        [CryptoUtils.encryptBytes constDigest32
          (jsonEncodeStrings ([sampleCode1, sampleCode2].erase sampleCode1))
          ("p" ++ "d" ++ "RECOVERY_CODE_SALT") "F"] }) ∧
    AuthenticationManager.verifyRecoveryCode constDigest32 "p" "d" sampleCode1 "G"
        (some { cfgBatch2 with encryptedRecoveryCodes :=
          [CryptoUtils.encryptBytes constDigest32
            (jsonEncodeStrings ([sampleCode1, sampleCode2].erase sampleCode1))
            ("p" ++ "d" ++ "RECOVERY_CODE_SALT") "F"] }) =
      (false, some { cfgBatch2 with encryptedRecoveryCodes :=
        [CryptoUtils.encryptBytes constDigest32
          (jsonEncodeStrings ([sampleCode1, sampleCode2].erase sampleCode1))
          ("p" ++ "d" ++ "RECOVERY_CODE_SALT") "F"] }) := by
  have h := claim_C6 constDigest32 constDigest32_bytesOk "p" "d" "F" "G" "S"
    [sampleCode1, sampleCode2] (by decide) cfgBatch2 rfl sampleCode1
  exact ⟨h.1 (by decide), h.2.1 (by decide) (by decide)⟩

/-- A concrete batch-format `twoFactorConfig` holding the same code
twice (possible, if improbable, output of the random code generator). -/
def cfgBatchDup : AuthenticationManager.TwoFAConfig :=
  { enabled := true
    encryptedSecret := { encrypted := [], salt := "" }
    encryptedRecoveryCodes :=
      [CryptoUtils.encryptBytes constDigest32
        (jsonEncodeStrings [sampleCode1, sampleCode1])
        ("p" ++ "d" ++ "RECOVERY_CODE_SALT") "S"]
    algorithm := "SHA1"
    digits := 6
    period := 30
    setupDate := ""
    deviceId := "d" }

/-- C6 counterexample: on a stored batch that holds the same code
twice, consuming that code succeeds, and consuming it a second time
from the persisted store succeeds again — the claim that a second
consume of the same code always fails is false as universally stated. -/
theorem claim_C6_counterexample :
    (AuthenticationManager.verifyRecoveryCode constDigest32 "p" "d" sampleCode1 "F"
        (some cfgBatchDup)).1 = true ∧
    (AuthenticationManager.verifyRecoveryCode constDigest32 "p" "d" sampleCode1 "G"
        ((AuthenticationManager.verifyRecoveryCode constDigest32 "p" "d" sampleCode1 "F"
          (some cfgBatchDup)).2)).1 = true := by
  have h1 := AuthenticationManager.verifyRecoveryCode_batch constDigest32
    constDigest32_bytesOk "p" "d" "F" "S" [sampleCode1, sampleCode1]
    (by decide) cfgBatchDup rfl sampleCode1
  rw [if_pos (by decide)] at h1
  have h2 := AuthenticationManager.verifyRecoveryCode_batch constDigest32
    constDigest32_bytesOk "p" "d" "G" "F"
    ([sampleCode1, sampleCode1].erase sampleCode1) (by decide)
    { cfgBatchDup with encryptedRecoveryCodes :=
      [CryptoUtils.encryptBytes constDigest32
        (jsonEncodeStrings ([sampleCode1, sampleCode1].erase sampleCode1))
        ("p" ++ "d" ++ "RECOVERY_CODE_SALT") "F"] } rfl sampleCode1
  rw [if_pos (by decide)] at h2
  constructor
  · rw [h1]
  · rw [h1, h2]

/-- A concrete legacy-format `twoFactorConfig` with exactly one
remaining individually encrypted code ("RR223344" as bytes). -/
def legacyCode : List Nat := [82, 82, 50, 50, 51, 51, 52, 52]

def cfgLegacy1 : AuthenticationManager.TwoFAConfig :=
  { enabled := true
    encryptedSecret := { encrypted := [], salt := "" }
    encryptedRecoveryCodes :=
      [CryptoUtils.encryptBytes constDigest32 legacyCode
        ("p" ++ "d" ++ "RECOVERY_CODE_SALT") "S"]
    algorithm := "SHA1"
    digits := 6
    period := 30
    setupDate := ""
    deviceId := "d" }

/-- C7: a legacy store with exactly one remaining code is routed to the
batch branch (its envelope list has length one), the decrypted raw code
fails to parse as a JSON array, and the consume of the correct code
returns false leaving the store unchanged — the code does not decode
the one-remaining-code legacy format. -/
theorem claim_C7_code_bug :
    AuthenticationManager.verifyRecoveryCode constDigest32 "p" "d" legacyCode "F"
      (some cfgLegacy1) = (false, some cfgLegacy1) := by
  have hdec : CryptoUtils.decryptBytes constDigest32
      (CryptoUtils.encryptBytes constDigest32 legacyCode
        ("p" ++ "d" ++ "RECOVERY_CODE_SALT") "S")
      ("p" ++ "d" ++ "RECOVERY_CODE_SALT") = legacyCode :=
    decryptBytes_encryptBytes constDigest32 constDigest32_bytesOk legacyCode
      (by decide) _ _
  have hnone : jsonDecodeStrings legacyCode = none := rfl
  have hlist : cfgLegacy1.encryptedRecoveryCodes =
      [CryptoUtils.encryptBytes constDigest32 legacyCode
        ("p" ++ "d" ++ "RECOVERY_CODE_SALT") "S"] := rfl
  simp only [AuthenticationManager.verifyRecoveryCode, hlist, hdec, hnone]

/-- Witness for C2 at the concrete stand-in digest. -/
theorem claim_C2_witness :
    (CryptoUtils.deriveKey constDigest32 [1] [2] 3 64).length = 2 * min 64 32 ∧
      ∀ (password : String) (saltArg : Option String) (freshSalt : String),
        (CryptoUtils.hashPassword constDigest32 password saltArg freshSalt).hash.length
          = 64 :=
  claim_C2 constDigest32 constDigest32_len32 [1] [2] 3 64 (by omega) (by omega)

/-- Char codes of the JS decimal representation `n.toString()`. -/
def decimalChars (n : Nat) : List Nat :=
  (Nat.toDigits 10 n).map Char.toNat

/-- `s.padStart(digits, "0")` on char codes. -/
def padStartZeros (digits : Nat) (s : List Nat) : List Nat :=
  List.replicate (digits - s.length) 48 ++ s

/-! ## TOTPManager (`src/utils/TOTPManager.ts`)

Secrets, tokens and codes are char-code lists; the digest primitive for
the selected algorithm (default SHA1) is the parameter `H`, as in the
`CryptoUtils` model; the clock is injected as `nowMs` (the
`Date.now()` value in milliseconds). -/

namespace TOTPManager

/-- `toUpperCase` on one ASCII char code (the input is filtered to the
Base32 alphabet right after, so only the ASCII case matters). -/
def jsToUpper (c : Nat) : Nat :=
  if 97 ≤ c ∧ c ≤ 122 then c - 32 else c

/-- Membership in the Base32 alphabet `A-Z2-7` (the
`replace(/[^A-Z2-7]/g, "")` filter). -/
def isBase32Code (c : Nat) : Bool :=
  decide ((65 ≤ c ∧ c ≤ 90) ∨ (50 ≤ c ∧ c ≤ 55))

/-- `alphabet.indexOf(char)` for a char of the Base32 alphabet. -/
def base32Index (c : Nat) : Nat :=
  if 65 ≤ c ∧ c ≤ 90 then c - 65 else 26 + (c - 50)

/-- The five bits of a Base32 symbol value, most significant first
(`index.toString(2).padStart(5, "0")`). -/
def bits5 (n : Nat) : List Nat :=
  [n / 16 % 2, n / 8 % 2, n / 4 % 2, n / 2 % 2, n % 2]

/-- Regroup the bit string into bytes, dropping a trailing group of
fewer than 8 bits (`Math.floor(bits.length / 8)`). -/
def bitsToBytes : List Nat → List Nat
  | b7 :: b6 :: b5 :: b4 :: b3 :: b2 :: b1 :: b0 :: rest =>
    (b7 * 128 + b6 * 64 + b5 * 32 + b4 * 16 + b3 * 8 + b2 * 4 + b1 * 2 + b0) ::
      bitsToBytes rest
  | _ => []

/-- `TOTPManager.base32Decode` (RFC 4648): uppercase, strip characters
outside the alphabet, concatenate the 5-bit groups and regroup into
bytes. -/
def base32Decode (encoded : List Nat) : List Nat :=
  bitsToBytes
    (((encoded.map jsToUpper).filter isBase32Code).flatMap
      (fun c => bits5 (base32Index c)))

/-- The 8-byte big-endian time-step buffer: `setUint32(4, timeStep,
false)` on a zeroed 8-byte buffer, where `setUint32` wraps its argument
to an unsigned 32-bit value. -/
def timeStepBytes (timeStep : Int) : List Nat :=
  let u := (timeStep.emod 4294967296).toNat
  [0, 0, 0, 0, u / 16777216 % 256, u / 65536 % 256, u / 256 % 256, u % 256]

/-- `TOTPManager.hmac` (block size 64): hash an over-long key, zero-pad
to the block size, XOR with the inner and outer pads, and hash twice. -/
def hmac (H : List Nat → List Nat) (key data : List Nat) : List Nat :=
  let keyBytes := if key.length > 64 then H key else key
  let paddedKey := (keyBytes ++ List.replicate 64 0).take 64
  let innerPad := paddedKey.map (fun b => b ^^^ 54)
  let outerPad := paddedKey.map (fun b => b ^^^ 92)
  H (outerPad ++ H (innerPad ++ data))

/-- `TOTPManager.generateTOTPForTimeStep`: RFC 4226 dynamic truncation
of the HMAC of the time-step buffer, reduced modulo `10 ^ digits` and
zero-padded.  An out-of-range HMAC index reads as 0, as the JS bitwise
coercion of `undefined` does (with a 20-byte SHA-1 HMAC all indices are
in range). -/
def generateTOTPForTimeStep (H : List Nat → List Nat) (secret : List Nat)
    (digits : Nat) (timeStep : Int) : List Nat :=
  let secretBytes := base32Decode secret
  let hmacResult := hmac H secretBytes (timeStepBytes timeStep)
  let offset := hmacResult.getD (hmacResult.length - 1) 0 &&& 15
  let code := ((hmacResult.getD offset 0 &&& 127) <<< 24 |||
      (hmacResult.getD (offset + 1) 0 &&& 255) <<< 16 |||
      (hmacResult.getD (offset + 2) 0 &&& 255) <<< 8 |||
      (hmacResult.getD (offset + 3) 0 &&& 255)) % 10 ^ digits
  padStartZeros digits (decimalChars code)

/-- Resolution of `config?.digits || DEFAULT_DIGITS` (0 is falsy). -/
def resolveDigits (o : Option Nat) : Nat :=
  match o with
  | some n => if n = 0 then 6 else n
  | none => 6

/-- Resolution of `config?.period || DEFAULT_PERIOD` (0 is falsy). -/
def resolvePeriod (o : Option Nat) : Nat :=
  match o with
  | some n => if n = 0 then 30 else n
  | none => 30

/-- `TOTPManager.generateTOTP(secret, config?)` at clock value `nowMs`:
the code for time step `floor(nowMs / 1000 / period)`. -/
def generateTOTP (H : List Nat → List Nat) (secret : List Nat) (nowMs : Nat)
    (digitsOpt periodOpt : Option Nat) : List Nat :=
  generateTOTPForTimeStep H secret (resolveDigits digitsOpt)
    ((nowMs / 1000 / resolvePeriod periodOpt : Nat) : Int)

/-- `TOTPManager.constantTimeCompare`: length check, then an OR-fold of
the char-code XORs. -/
def constantTimeCompare (a b : List Nat) : Bool :=
  if a.length ≠ b.length then false
  else ((a.zip b).foldl (fun r p => r ||| (p.1 ^^^ p.2)) 0) == 0

/-- The `TOTPVerificationResult` interface. -/
structure TOTPVerificationResult where
  valid : Bool
  timeStep : Option Int
deriving DecidableEq, Repr

/-- `TOTPManager.verifyTOTP(token, secret, config?)` at clock value
`nowMs`: try the time steps `currentTimeStep + i` for `i` from `-1` to
`1` in order (`WINDOW_SIZE = 1`) and return on the first
constant-time-compare match; otherwise invalid with no time step. -/
def verifyTOTP (H : List Nat → List Nat) (token secret : List Nat) (nowMs : Nat)
    (digitsOpt periodOpt : Option Nat) : TOTPVerificationResult :=
  let digits := resolveDigits digitsOpt
  let period := resolvePeriod periodOpt
  let currentTimeStep : Int := ((nowMs / 1000 / period : Nat) : Int)
  match ([-1, 0, 1] : List Int).find?
      (fun i => constantTimeCompare token
        (generateTOTPForTimeStep H secret digits (currentTimeStep + i))) with
  | some i => { valid := true, timeStep := some (currentTimeStep + i) }
  | none => { valid := false, timeStep := none }

theorem or_eq_zero (a b : Nat) : a ||| b = 0 ↔ a = 0 ∧ b = 0 := by
  constructor
  · intro h
    constructor
    · apply Nat.eq_of_testBit_eq
      intro i
      have ht := congrArg (fun x => Nat.testBit x i) h
      simp only [Nat.testBit_or, Nat.zero_testBit, Bool.or_eq_false_iff] at ht
      simp [ht.1]
    · apply Nat.eq_of_testBit_eq
      intro i
      have ht := congrArg (fun x => Nat.testBit x i) h
      simp only [Nat.testBit_or, Nat.zero_testBit, Bool.or_eq_false_iff] at ht
      simp [ht.2]
  · rintro ⟨rfl, rfl⟩
    rfl

theorem foldl_or_eq_zero (l : List (Nat × Nat)) :
    ∀ acc : Nat, (l.foldl (fun r p => r ||| (p.1 ^^^ p.2)) acc = 0) ↔
      (acc = 0 ∧ ∀ p ∈ l, p.1 = p.2) := by
  induction l with
  | nil => intro acc; simp
  | cons p l ih =>
    intro acc
    rw [List.foldl_cons, ih]
    rw [or_eq_zero]
    constructor
    · rintro ⟨⟨h1, h2⟩, h3⟩
      exact ⟨h1, fun q hq => by
        rcases List.mem_cons.mp hq with rfl | hq
        · exact Nat.xor_eq_zero.mp h2
        · exact h3 q hq⟩
    · rintro ⟨h1, h2⟩
      exact ⟨⟨h1, Nat.xor_eq_zero.mpr (h2 p (List.mem_cons_self p l))⟩,
        fun q hq => h2 q (List.mem_cons_of_mem p hq)⟩

theorem zip_forall_eq : ∀ (a b : List Nat), a.length = b.length →
    ((∀ p ∈ a.zip b, p.1 = p.2) ↔ a = b)
  | [], [], _ => by simp
  | [], b :: bs, h => by simp at h
  | a :: as, [], h => by simp at h
  | a :: as, b :: bs, h => by
    have ih := zip_forall_eq as bs (by simpa using h)
    rw [List.zip_cons_cons]
    constructor
    · intro hall
      have hab := hall (a, b) (List.mem_cons_self _ _)
      have has := ih.mp (fun q hq => hall q (List.mem_cons_of_mem _ hq))
      simp_all
    · intro heq
      rcases List.cons_eq_cons.mp heq with ⟨rfl, rfl⟩
      intro q hq
      rcases List.mem_cons.mp hq with rfl | hq
      · rfl
      · exact (ih.mpr rfl) q hq

/-- The constant-time compare decides equality of the two char-code
lists. -/
theorem constantTimeCompare_eq_decide (a b : List Nat) :
    constantTimeCompare a b = decide (a = b) := by
  rw [constantTimeCompare]
  by_cases hlen : a.length = b.length
  · rw [if_neg (by omega)]
    have h1 := foldl_or_eq_zero (a.zip b) 0
    have h2 := zip_forall_eq a b hlen
    rcases Bool.eq_false_or_eq_true (decide (a = b)) with hd | hd <;> rw [hd]
    · have heq : a = b := of_decide_eq_true hd
      have hfold : (a.zip b).foldl (fun r p => r ||| (p.1 ^^^ p.2)) 0 = 0 := by
        rw [h1]
        exact ⟨rfl, h2.mpr heq⟩
      simpa using hfold
    · have hne : ¬ a = b := of_decide_eq_false hd
      have hfold : ¬ ((a.zip b).foldl (fun r p => r ||| (p.1 ^^^ p.2)) 0 = 0) := by
        rw [h1]
        intro hx
        exact hne (h2.mp hx.2)
      simpa using hfold
  · rw [if_pos (by omega)]
    have hne : ¬ a = b := fun hc => hlen (by rw [hc])
    simp [hne]

/-- Unfolding of `verifyTOTP` as a first-match if-chain over the three
window steps. -/
theorem verifyTOTP_eq_ifs (H : List Nat → List Nat) (token secret : List Nat)
    (nowMs : Nat) (digitsOpt periodOpt : Option Nat) :
    verifyTOTP H token secret nowMs digitsOpt periodOpt =
      (if token = generateTOTPForTimeStep H secret (resolveDigits digitsOpt)
          (((nowMs / 1000 / resolvePeriod periodOpt : Nat) : Int) + -1) then
        { valid := true,
          timeStep := some (((nowMs / 1000 / resolvePeriod periodOpt : Nat) : Int) + -1) }
      else if token = generateTOTPForTimeStep H secret (resolveDigits digitsOpt)
          (((nowMs / 1000 / resolvePeriod periodOpt : Nat) : Int) + 0) then
        { valid := true,
          timeStep := some (((nowMs / 1000 / resolvePeriod periodOpt : Nat) : Int) + 0) }
      else if token = generateTOTPForTimeStep H secret (resolveDigits digitsOpt)
          (((nowMs / 1000 / resolvePeriod periodOpt : Nat) : Int) + 1) then
        { valid := true,
          timeStep := some (((nowMs / 1000 / resolvePeriod periodOpt : Nat) : Int) + 1) }
      else { valid := false, timeStep := none }) := by
  rw [verifyTOTP]
  by_cases h1 : token = generateTOTPForTimeStep H secret (resolveDigits digitsOpt)
      (((nowMs / 1000 / resolvePeriod periodOpt : Nat) : Int) + -1)
  · rw [List.find?_cons_of_pos _
      (by rw [constantTimeCompare_eq_decide]; exact decide_eq_true h1), if_pos h1]
  · rw [List.find?_cons_of_neg _
      (fun hpc => h1 (by rwa [constantTimeCompare_eq_decide, decide_eq_true_eq] at hpc)),
      if_neg h1]
    by_cases h2 : token = generateTOTPForTimeStep H secret (resolveDigits digitsOpt)
        (((nowMs / 1000 / resolvePeriod periodOpt : Nat) : Int) + 0)
    · rw [List.find?_cons_of_pos _
        (by rw [constantTimeCompare_eq_decide]; exact decide_eq_true h2), if_pos h2]
    · rw [List.find?_cons_of_neg _
        (fun hpc => h2 (by rwa [constantTimeCompare_eq_decide, decide_eq_true_eq] at hpc)),
        if_neg h2]
      by_cases h3 : token = generateTOTPForTimeStep H secret (resolveDigits digitsOpt)
          (((nowMs / 1000 / resolvePeriod periodOpt : Nat) : Int) + 1)
      · rw [List.find?_cons_of_pos _
          (by rw [constantTimeCompare_eq_decide]; exact decide_eq_true h3), if_pos h3]
      · rw [List.find?_cons_of_neg _
          (fun hpc => h3 (by rwa [constantTimeCompare_eq_decide, decide_eq_true_eq] at hpc)),
          if_neg h3]
        rfl

end TOTPManager

/-- C5: verifyTOTP returns valid together with the matching time step
exactly when the token equals the code computed for some time step in
`{ts - 1, ts, ts + 1}` where `ts = floor(nowMs / 1000 / period)`,
returning on the first match in that order, and returns invalid with no
time step otherwise; in particular a code generated at a clock value
whose time step differs from the verification time step by at most one
verifies. -/
theorem claim_C5 (H : List Nat → List Nat) (token secret : List Nat)
    (nowMs : Nat) (digitsOpt periodOpt : Option Nat) :
    ((TOTPManager.verifyTOTP H token secret nowMs digitsOpt periodOpt).valid = true ↔
      (token = TOTPManager.generateTOTPForTimeStep H secret
          (TOTPManager.resolveDigits digitsOpt)
          (((nowMs / 1000 / TOTPManager.resolvePeriod periodOpt : Nat) : Int) + -1) ∨
        token = TOTPManager.generateTOTPForTimeStep H secret
          (TOTPManager.resolveDigits digitsOpt)
          (((nowMs / 1000 / TOTPManager.resolvePeriod periodOpt : Nat) : Int) + 0) ∨
        token = TOTPManager.generateTOTPForTimeStep H secret
          (TOTPManager.resolveDigits digitsOpt)
          (((nowMs / 1000 / TOTPManager.resolvePeriod periodOpt : Nat) : Int) + 1))) ∧
    ((TOTPManager.verifyTOTP H token secret nowMs digitsOpt periodOpt).timeStep =
      if token = TOTPManager.generateTOTPForTimeStep H secret
          (TOTPManager.resolveDigits digitsOpt)
          (((nowMs / 1000 / TOTPManager.resolvePeriod periodOpt : Nat) : Int) + -1) then
        some (((nowMs / 1000 / TOTPManager.resolvePeriod periodOpt : Nat) : Int) + -1)
      else if token = TOTPManager.generateTOTPForTimeStep H secret
          (TOTPManager.resolveDigits digitsOpt)
          (((nowMs / 1000 / TOTPManager.resolvePeriod periodOpt : Nat) : Int) + 0) then
        some (((nowMs / 1000 / TOTPManager.resolvePeriod periodOpt : Nat) : Int) + 0)
      else if token = TOTPManager.generateTOTPForTimeStep H secret
          (TOTPManager.resolveDigits digitsOpt)
          (((nowMs / 1000 / TOTPManager.resolvePeriod periodOpt : Nat) : Int) + 1) then
        some (((nowMs / 1000 / TOTPManager.resolvePeriod periodOpt : Nat) : Int) + 1)
      else none) ∧
    (∀ (tGenMs : Nat) (i : Int), (i = -1 ∨ i = 0 ∨ i = 1) →
      ((tGenMs / 1000 / TOTPManager.resolvePeriod periodOpt : Nat) : Int) =
        ((nowMs / 1000 / TOTPManager.resolvePeriod periodOpt : Nat) : Int) + i →
      (TOTPManager.verifyTOTP H
        (TOTPManager.generateTOTP H secret tGenMs digitsOpt periodOpt)
        secret nowMs digitsOpt periodOpt).valid = true) := by
  have hifs := fun tk => TOTPManager.verifyTOTP_eq_ifs H tk secret nowMs digitsOpt periodOpt
  refine ⟨?_, ?_, ?_⟩
  · rw [hifs token]
    split_ifs with h1 h2 h3 <;> simp_all
  · rw [hifs token]
    split_ifs with h1 h2 h3 <;> simp_all
  · intro tGenMs i hi hts
    have hgen : TOTPManager.generateTOTP H secret tGenMs digitsOpt periodOpt =
        TOTPManager.generateTOTPForTimeStep H secret
          (TOTPManager.resolveDigits digitsOpt)
          (((nowMs / 1000 / TOTPManager.resolvePeriod periodOpt : Nat) : Int) + i) := by
      rw [TOTPManager.generateTOTP, hts]
    rw [hifs]
    rcases hi with rfl | rfl | rfl
    · rw [if_pos hgen]
    · by_cases hpre : TOTPManager.generateTOTP H secret tGenMs digitsOpt periodOpt =
          TOTPManager.generateTOTPForTimeStep H secret
            (TOTPManager.resolveDigits digitsOpt)
            (((nowMs / 1000 / TOTPManager.resolvePeriod periodOpt : Nat) : Int) + -1)
      · rw [if_pos hpre]
      · rw [if_neg hpre, if_pos hgen]
    · by_cases hp1 : TOTPManager.generateTOTP H secret tGenMs digitsOpt periodOpt =
          TOTPManager.generateTOTPForTimeStep H secret
            (TOTPManager.resolveDigits digitsOpt)
            (((nowMs / 1000 / TOTPManager.resolvePeriod periodOpt : Nat) : Int) + -1)
      · rw [if_pos hp1]
      · rw [if_neg hp1]
        by_cases hp2 : TOTPManager.generateTOTP H secret tGenMs digitsOpt periodOpt =
            TOTPManager.generateTOTPForTimeStep H secret
              (TOTPManager.resolveDigits digitsOpt)
              (((nowMs / 1000 / TOTPManager.resolvePeriod periodOpt : Nat) : Int) + 0)
        · rw [if_pos hp2]
        · rw [if_neg hp2, if_pos hgen]

/-- The RFC 6238 test secret as a char-code list ("JBSWY3DPEHPK3PXP"). -/
def secretJBSW : List Nat :=
  [74, 66, 83, 87, 89, 51, 68, 80, 69, 72, 80, 75, 51, 80, 88, 80]

/-- Witness for C5: a code generated at 45 s verifies at 60 s (time
steps 1 and 2, drift -1) under the default 30 s period. -/
theorem claim_C5_witness :
    (TOTPManager.verifyTOTP constDigest32
      (TOTPManager.generateTOTP constDigest32 secretJBSW 45000 none none)
      secretJBSW 60000 none none).valid = true :=
  (claim_C5 constDigest32
      (TOTPManager.generateTOTP constDigest32 secretJBSW 45000 none none)
      secretJBSW 60000 none none).2.2 45000 (-1) (Or.inl rfl) (by decide)

/-- `AuthenticationManager.generateTOTPCode(secret, timeStep?)`:
`totpResult` stands for the outcome of the underlying
`TOTPManager.generateTOTP` call (whose digest primitive can throw); on
success its code is returned, and the catch block computes a fallback
code from the non-cryptographic formula
`Math.abs(timeCounter * secret.length) % 1000000` (`timeStep || now` is
falsy at 0). -/
def AuthenticationManager.generateTOTPCode (totpResult : Except Unit (List Nat))
    (secret : List Nat) (timeStep : Option Nat) (nowMs : Nat) : List Nat :=
  match totpResult with
  | .ok code => code
  | .error _ =>
    let now := match timeStep with
      | some t => if t = 0 then nowMs / 1000 else t
      | none => nowMs / 1000
    let timeCounter := now / 30
    let code := timeCounter * secret.length % 1000000
    padStartZeros 6 (decimalChars code)

/-- `AuthenticationManager.verifyTOTPCode(providedCode, secret)`:
`result` stands for the outcome of the underlying
`TOTPManager.verifyTOTP` call; the catch block returns false. -/
def AuthenticationManager.verifyTOTPCode
    (result : Except Unit TOTPManager.TOTPVerificationResult) : Bool :=
  match result with
  | .ok r => r.valid
  | .error _ => false

/-- C4: when the underlying TOTP computation throws,
`generateTOTPCode` does not propagate the error: it silently falls back
to the non-cryptographic formula and returns the code "000048" for the
16-char test secret at time step 100 (floor(100 / 30) * 16 = 48) —
while `verifyTOTPCode` does treat a throwing computation as invalid. -/
theorem claim_C4_code_bug :
    AuthenticationManager.generateTOTPCode (Except.error ()) secretJBSW (some 100) 0 =
      [48, 48, 48, 48, 52, 56] ∧
    AuthenticationManager.verifyTOTPCode (Except.error ()) = false := by
  constructor
  · decide
  · rfl

/-! ## SecurityManager.emergencyWipe
(`src/utils/SecurityManager.ts`, method 23) -/

namespace SecurityManager

/-- The external key-value store (`expo-secure-store`), as a total map
from keys to optional values. -/
def Store := String → Option String

/-- `SecureStore.deleteItemAsync(key)` on the store model. -/
def deleteItem (key : String) (store : Store) : Store :=
  fun k => if k = key then none else store k

/-- The key list `emergencyWipe` iterates over. -/
def wipeKeys : List String :=
  ["masterPassword", "vaultItems", "biometricEnabled", "twoFactorEnabled",
   "hasSetupPassword", "hasCompletedOnboarding", "sessionTimeout", "authSettings"]

/-- `SecurityManager.emergencyWipe`: delete each of the listed keys in
order (each deletion is individually try-caught in the source; the
store interface here is total, so a delete always takes effect). -/
def emergencyWipe (store : Store) : Store :=
  wipeKeys.foldl (fun s k => deleteItem k s) store

end SecurityManager

/-- C3: `emergencyWipe` deletes exactly the stored keys
`masterPassword`, `vaultItems`, `biometricEnabled`, `twoFactorEnabled`,
`hasSetupPassword`, `hasCompletedOnboarding`, `sessionTimeout` and
`authSettings`, and leaves every other entry unchanged — in particular
`masterPasswordHash`, `passwordSalt` and `twoFactorConfig`, the entries
the app writes credentials to, survive a wipe. -/
theorem claim_C3 (store : SecurityManager.Store) (k : String) :
    SecurityManager.emergencyWipe store k =
        (if k ∈ SecurityManager.wipeKeys then none else store k) ∧
      SecurityManager.emergencyWipe store "masterPasswordHash" =
        store "masterPasswordHash" ∧
      SecurityManager.emergencyWipe store "passwordSalt" = store "passwordSalt" ∧
      SecurityManager.emergencyWipe store "twoFactorConfig" =
        store "twoFactorConfig" := by
  have hgen : ∀ q : String, SecurityManager.emergencyWipe store q =
      if q ∈ SecurityManager.wipeKeys then none else store q := by
    intro q
    simp only [SecurityManager.emergencyWipe, SecurityManager.wipeKeys,
      List.foldl_cons, List.foldl_nil, SecurityManager.deleteItem,
      List.mem_cons, List.not_mem_nil, or_false]
    split_ifs <;> simp_all
  exact ⟨hgen k, by rw [hgen]; rfl, by rw [hgen]; rfl, by rw [hgen]; rfl⟩

/-! ## AuthenticationManager: master-password verification
(`src/utils/SecurityManager.js`, methods 6 and the `CryptoUtils`
verifier) -/

namespace AuthenticationManager

/-- The key-value store with failure: a read either returns the
optional value or throws a `StorageError`. -/
def FStore := String → Except Unit (Option String)

/-- `AuthenticationManager.verifyMasterPassword(password)`: read the
stored hash and salt (any thrown `StorageError` is caught and yields
false), return false when either is missing or empty (`!storedHash ||
!salt`), else recompute and compare via
`CryptoUtils.verifyPassword`. -/
def verifyMasterPassword (H : List Nat → List Nat) (freshSalt : String)
    (store : FStore) (password : String) : Bool :=
  match store "masterPasswordHash" with
  | .error _ => false
  | .ok storedHashOpt =>
    match store "passwordSalt" with
    | .error _ => false
    | .ok saltOpt =>
      match storedHashOpt with
      | none => false
      | some storedHash =>
        match saltOpt with
        | none => false
        | some salt =>
          if storedHash.isEmpty ∨ salt.isEmpty then false
          else CryptoUtils.verifyPassword H password storedHash salt freshSalt

end AuthenticationManager

/-- C8: master-password verification returns false rather than throwing
when the stored record is missing or malformed, a storage failure while
reading the record yields false (authentication failure, never
success), and it returns true only when a well-formed record was read
and the recomputed hash matched. -/
theorem claim_C8 (H : List Nat → List Nat) (freshSalt : String)
    (store : AuthenticationManager.FStore) (password : String) :
    (∀ e, store "masterPasswordHash" = .error e →
      AuthenticationManager.verifyMasterPassword H freshSalt store password = false) ∧
    (store "masterPasswordHash" = .ok none →
      AuthenticationManager.verifyMasterPassword H freshSalt store password = false) ∧
    (∀ e, store "passwordSalt" = .error e →
      AuthenticationManager.verifyMasterPassword H freshSalt store password = false) ∧
    (store "passwordSalt" = .ok none →
      AuthenticationManager.verifyMasterPassword H freshSalt store password = false) ∧
    (AuthenticationManager.verifyMasterPassword H freshSalt store password = true →
      ∃ storedHash salt, store "masterPasswordHash" = .ok (some storedHash) ∧
        store "passwordSalt" = .ok (some salt) ∧
        storedHash.isEmpty = false ∧ salt.isEmpty = false ∧
        CryptoUtils.verifyPassword H password storedHash salt freshSalt = true) := by
  refine ⟨?_, ?_, ?_, ?_, ?_⟩
  · intro e he
    rw [AuthenticationManager.verifyMasterPassword, he]
  · intro he
    rw [AuthenticationManager.verifyMasterPassword, he]
    rcases hs : store "passwordSalt" with e | v <;> rfl
  · intro e he
    rcases hm : store "masterPasswordHash" with e2 | v
    · rw [AuthenticationManager.verifyMasterPassword, hm]
    · rw [AuthenticationManager.verifyMasterPassword, hm, he]
  · intro he
    rcases hm : store "masterPasswordHash" with e2 | v
    · rw [AuthenticationManager.verifyMasterPassword, hm]
    · rw [AuthenticationManager.verifyMasterPassword, hm, he]
      rcases v with _ | h <;> rfl
  · intro hv
    rw [AuthenticationManager.verifyMasterPassword] at hv
    rcases hh : store "masterPasswordHash" with e | v1 <;> rw [hh] at hv
    · simp at hv
    rcases hs : store "passwordSalt" with e | v2 <;> rw [hs] at hv
    · simp at hv
    rcases v1 with _ | h1
    · simp at hv
    rcases v2 with _ | s2
    · simp at hv
    dsimp only at hv
    by_cases hemp : h1.isEmpty = true ∨ s2.isEmpty = true
    · rw [if_pos hemp] at hv
      exact absurd hv (by simp)
    · rw [if_neg hemp] at hv
      have h1e : h1.isEmpty = false := by
        rcases Bool.eq_false_or_eq_true h1.isEmpty with h | h
        · exact absurd (Or.inl h) hemp
        · exact h
      have s2e : s2.isEmpty = false := by
        rcases Bool.eq_false_or_eq_true s2.isEmpty with h | h
        · exact absurd (Or.inr h) hemp
        · exact h
      exact ⟨h1, s2, rfl, rfl, h1e, s2e, hv⟩

/-- Witness for C8: a store whose every read throws makes verification
return false. -/
theorem claim_C8_witness :
    AuthenticationManager.verifyMasterPassword constDigest32 "F"
      (fun _ => Except.error ()) "hunter2" = false :=
  (claim_C8 constDigest32 "F" (fun _ => Except.error ()) "hunter2").1 () rfl

/-! ## AuthenticationManager: the multi-factor orchestrator
(`src/utils/SecurityManager.js`, methods 5, 11, 12)

`authenticateUser` calls `verifyMasterPassword`, the biometric oracle,
`verify2FA` and `verifyRecoveryCode`; those verifiers are passed in as
the functions `vp`, `vb`, `v2`, `vr` (the biometric oracle result is a
plain boolean).  `v2` and `vr` receive the candidate code and the
optional `credentials.password!` exactly as the source forwards it. -/

namespace AuthenticationManager

/-- JS truthiness of an optional string (`undefined` and the empty
string are falsy). -/
def truthy (o : Option String) : Bool :=
  match o with
  | some s => !s.isEmpty
  | none => false

/-- The `AuthSettings` record of `getAuthenticationSettings`. -/
structure AuthSettings where
  hasPassword : Bool
  biometricEnabled : Bool
  twoFactorEnabled : Bool
deriving DecidableEq, Repr

/-- The `AuthCredentials` interface. -/
structure AuthCredentials where
  password : Option String
  requestBiometric : Bool
  twoFactorCode : Option String
  recoveryCode : Option String
deriving DecidableEq, Repr

/-- The `AuthResults` interface. -/
structure AuthResults where
  passwordValid : Bool
  biometricValid : Bool
  twoFactorValid : Bool
  success : Bool
  error : Option String
deriving DecidableEq, Repr

/-- `AuthenticationManager.getRequiredAuthMethods(authSettings)`. -/
def getRequiredAuthMethods (authSettings : AuthSettings) : List String :=
  (if authSettings.hasPassword then ["password"] else []) ++
    (if authSettings.biometricEnabled then ["biometric"] else []) ++
      (if authSettings.twoFactorEnabled then ["twoFactor"] else [])

/-- `AuthenticationManager.validateAuthenticationResults(results,
requiredMethods)`: the for-switch loop returning false on the first
required method whose flag is down. -/
def validateAuthenticationResults (results : AuthResults) :
    List String → Bool
  | [] => true
  | method :: rest =>
    if method = "password" then
      if results.passwordValid then validateAuthenticationResults results rest
      else false
    else if method = "biometric" then
      if results.biometricValid then validateAuthenticationResults results rest
      else false
    else if method = "twoFactor" then
      if results.twoFactorValid then validateAuthenticationResults results rest
      else false
    else validateAuthenticationResults results rest

/-- `AuthenticationManager.authenticateUser(credentials)`: verify the
master password when one is supplied (empty is falsy), returning early
on failure; verify biometric when enabled and requested, returning
early on failure; verify the 2FA code (or, when no truthy code is
given, the recovery code) when 2FA is enabled, returning early on
failure; finally validate the collected flags against the required
methods. -/
def authenticateUser (vp : String → Bool) (vb : Bool)
    (v2 : String → Option String → Bool) (vr : String → Option String → Bool)
    (authSettings : AuthSettings) (credentials : AuthCredentials) : AuthResults :=
  let passwordValid :=
    if truthy credentials.password then vp (credentials.password.getD "") else false
  if truthy credentials.password ∧ passwordValid = false then
    { passwordValid := false, biometricValid := false, twoFactorValid := false,
      success := false, error := some "Invalid master password" }
  else
    let biometricValid :=
      if authSettings.biometricEnabled ∧ credentials.requestBiometric then vb
      else false
    if (authSettings.biometricEnabled ∧ credentials.requestBiometric) ∧
        biometricValid = false then
      { passwordValid := passwordValid, biometricValid := false,
        twoFactorValid := false, success := false,
        error := some "Biometric authentication failed" }
    else
      let twoFactorValid :=
        if authSettings.twoFactorEnabled then
          if truthy credentials.twoFactorCode then
            v2 (credentials.twoFactorCode.getD "") credentials.password
          else if truthy credentials.recoveryCode then
            vr (credentials.recoveryCode.getD "") credentials.password
          else false
        else false
      if authSettings.twoFactorEnabled ∧ twoFactorValid = false then
        { passwordValid := passwordValid, biometricValid := biometricValid,
          twoFactorValid := false, success := false,
          error := some "Invalid 2FA code" }
      else
        let results : AuthResults :=
          { passwordValid := passwordValid, biometricValid := biometricValid,
            twoFactorValid := twoFactorValid, success := false, error := none }
        { results with success :=
            validateAuthenticationResults results (getRequiredAuthMethods authSettings) }

/-- The validation loop passes only when every enabled factor flag is
up. -/
theorem validate_required (s : AuthSettings) (r : AuthResults)
    (h : validateAuthenticationResults r (getRequiredAuthMethods s) = true) :
    (s.hasPassword = true → r.passwordValid = true) ∧
      (s.biometricEnabled = true → r.biometricValid = true) ∧
      (s.twoFactorEnabled = true → r.twoFactorValid = true) := by
  rcases s with ⟨hp, bio, tfa⟩
  cases hp <;> cases bio <;> cases tfa <;>
    simp_all [getRequiredAuthMethods, validateAuthenticationResults]

end AuthenticationManager

/-- C9: with a password set up, 2FA enabled and biometric disabled in
the stored settings, `authenticateUser` called with the correct master
password and a TOTP code that verifies returns success. -/
theorem claim_C9 (vp : String → Bool) (vb : Bool)
    (v2 vr : String → Option String → Bool)
    (c : AuthenticationManager.AuthCredentials) (pw code : String)
    (hpw : c.password = some pw) (hpwne : pw.isEmpty = false)
    (hvp : vp pw = true)
    (hcode : c.twoFactorCode = some code) (hcodene : code.isEmpty = false)
    (hv2 : v2 code (some pw) = true) :
    (AuthenticationManager.authenticateUser vp vb v2 vr
      { hasPassword := true, biometricEnabled := false, twoFactorEnabled := true }
      c).success = true := by
  simp [AuthenticationManager.authenticateUser, AuthenticationManager.truthy,
    hpw, hcode, hpwne, hvp, hcodene, hv2,
    AuthenticationManager.validateAuthenticationResults,
    AuthenticationManager.getRequiredAuthMethods]

/-- Witness for C9 with concrete always-accepting verifiers and
concrete credentials. -/
theorem claim_C9_witness :
    (AuthenticationManager.authenticateUser (fun _ => true) true
      (fun _ _ => true) (fun _ _ => false)
      { hasPassword := true, biometricEnabled := false, twoFactorEnabled := true }
      { password := some "hunter2", requestBiometric := false,
        twoFactorCode := some "123456", recoveryCode := none }).success = true :=
  claim_C9 (fun _ => true) true (fun _ _ => true) (fun _ _ => false)
    { password := some "hunter2", requestBiometric := false,
      twoFactorCode := some "123456", recoveryCode := none }
    "hunter2" "123456" rfl rfl rfl rfl rfl rfl

/-- C10: `authenticateUser` succeeds only if every enabled factor was
individually verified during the call — a truthy password that the
password verifier accepted whenever a password is set up, a requested
and passed biometric check whenever biometric is enabled, and a
verified TOTP code (or, failing a truthy TOTP code, a verified recovery
code) whenever 2FA is enabled; omitting any enabled factor from the
credentials yields failure. -/
theorem claim_C10 (vp : String → Bool) (vb : Bool)
    (v2 vr : String → Option String → Bool)
    (s : AuthenticationManager.AuthSettings)
    (c : AuthenticationManager.AuthCredentials) :
    ((AuthenticationManager.authenticateUser vp vb v2 vr s c).success = true →
      (s.hasPassword = true →
        ∃ pw, c.password = some pw ∧ pw.isEmpty = false ∧ vp pw = true) ∧
      (s.biometricEnabled = true → c.requestBiometric = true ∧ vb = true) ∧
      (s.twoFactorEnabled = true →
        (∃ code, c.twoFactorCode = some code ∧ code.isEmpty = false ∧
          v2 code c.password = true) ∨
        (AuthenticationManager.truthy c.twoFactorCode = false ∧
          ∃ rc, c.recoveryCode = some rc ∧ rc.isEmpty = false ∧
            vr rc c.password = true))) ∧
    (s.hasPassword = true → c.password = none →
      (AuthenticationManager.authenticateUser vp vb v2 vr s c).success = false) ∧
    (s.biometricEnabled = true → c.requestBiometric = false →
      (AuthenticationManager.authenticateUser vp vb v2 vr s c).success = false) ∧
    (s.twoFactorEnabled = true → c.twoFactorCode = none → c.recoveryCode = none →
      (AuthenticationManager.authenticateUser vp vb v2 vr s c).success = false) := by
  have hmain : (AuthenticationManager.authenticateUser vp vb v2 vr s c).success = true →
      (s.hasPassword = true →
        ∃ pw, c.password = some pw ∧ pw.isEmpty = false ∧ vp pw = true) ∧
      (s.biometricEnabled = true → c.requestBiometric = true ∧ vb = true) ∧
      (s.twoFactorEnabled = true →
        (∃ code, c.twoFactorCode = some code ∧ code.isEmpty = false ∧
          v2 code c.password = true) ∨
        (AuthenticationManager.truthy c.twoFactorCode = false ∧
          ∃ rc, c.recoveryCode = some rc ∧ rc.isEmpty = false ∧
            vr rc c.password = true)) := by
    intro hsucc
    have hflags : (s.hasPassword = true →
        (if AuthenticationManager.truthy c.password then vp (c.password.getD "")
         else false) = true) ∧
      (s.biometricEnabled = true →
        (if s.biometricEnabled = true ∧ c.requestBiometric = true then vb
         else false) = true) ∧
      (s.twoFactorEnabled = true →
        (if AuthenticationManager.truthy c.twoFactorCode then
          v2 (c.twoFactorCode.getD "") c.password
         else if AuthenticationManager.truthy c.recoveryCode then
          vr (c.recoveryCode.getD "") c.password
         else false) = true) := by
      simp only [AuthenticationManager.authenticateUser] at hsucc
      split_ifs at hsucc
      all_goals (
        try dsimp only at hsucc
        have hval := AuthenticationManager.validate_required s _ hsucc
        refine ⟨fun hsp => ?_, fun hbio => ?_, fun htfa => ?_⟩ <;> simp_all)
    refine ⟨fun hsp => ?_, fun hbio => ?_, fun htfa => ?_⟩
    · have h := hflags.1 hsp
      rcases hcp : c.password with _ | pw
      · rw [hcp] at h
        simp [AuthenticationManager.truthy] at h
      · rw [hcp] at h
        by_cases he : pw.isEmpty = true
        · rw [if_neg (by simp [AuthenticationManager.truthy, he])] at h
          exact absurd h (by simp)
        · refine ⟨pw, rfl, by simpa using he, ?_⟩
          rw [if_pos (by simp [AuthenticationManager.truthy, he])] at h
          simpa using h
    · have h := hflags.2.1 hbio
      by_cases hrq : c.requestBiometric = true
      · refine ⟨hrq, ?_⟩
        rwa [if_pos ⟨hbio, hrq⟩] at h
      · rw [if_neg (fun hc => hrq hc.2)] at h
        exact absurd h (by simp)
    · have h := hflags.2.2 htfa
      by_cases htc : AuthenticationManager.truthy c.twoFactorCode = true
      · left
        rcases hct : c.twoFactorCode with _ | code
        · rw [hct] at htc
          simp [AuthenticationManager.truthy] at htc
        · rw [hct] at h htc
          refine ⟨code, rfl, ?_, ?_⟩
          · simpa [AuthenticationManager.truthy] using htc
          · rw [if_pos htc] at h
            simpa using h
      · right
        have htcf : AuthenticationManager.truthy c.twoFactorCode = false := by
          rcases Bool.eq_false_or_eq_true
              (AuthenticationManager.truthy c.twoFactorCode) with hb | hb
          · exact absurd hb htc
          · exact hb
        refine ⟨htcf, ?_⟩
        rw [if_neg htc] at h
        by_cases hrc2 : AuthenticationManager.truthy c.recoveryCode = true
        · rcases hcr : c.recoveryCode with _ | rc
          · rw [hcr] at hrc2
            simp [AuthenticationManager.truthy] at hrc2
          · rw [hcr] at h hrc2
            refine ⟨rc, rfl, ?_, ?_⟩
            · simpa [AuthenticationManager.truthy] using hrc2
            · rw [if_pos hrc2] at h
              simpa using h
        · rw [if_neg hrc2] at h
          exact absurd h (by simp)
  refine ⟨hmain, fun hsp hnone => ?_, fun hbio hnoreq => ?_,
    fun htfa hnotc hnorc => ?_⟩
  · rcases Bool.eq_false_or_eq_true
        (AuthenticationManager.authenticateUser vp vb v2 vr s c).success with ht | hf
    · rcases (hmain ht).1 hsp with ⟨pw, hpw, _⟩
      rw [hnone] at hpw
      exact absurd hpw (by simp)
    · exact hf
  · rcases Bool.eq_false_or_eq_true
        (AuthenticationManager.authenticateUser vp vb v2 vr s c).success with ht | hf
    · have := ((hmain ht).2.1 hbio).1
      rw [hnoreq] at this
      exact absurd this (by simp)
    · exact hf
  · rcases Bool.eq_false_or_eq_true
        (AuthenticationManager.authenticateUser vp vb v2 vr s c).success with ht | hf
    · rcases (hmain ht).2.2 htfa with ⟨code, hcode, _⟩ | ⟨_, rc, hrc, _⟩
      · rw [hnotc] at hcode
        exact absurd hcode (by simp)
      · rw [hnorc] at hrc
        exact absurd hrc (by simp)
    · exact hf

/-- Witness for C10: with every factor enabled, always-accepting
verifiers and full credentials the call succeeds, so the theorem yields
the verified-factor facts at that input. -/
theorem claim_C10_witness :
    (AuthenticationManager.AuthSettings.hasPassword
        { hasPassword := true, biometricEnabled := true, twoFactorEnabled := true } = true →
      ∃ pw, (some "hunter2" : Option String) = some pw ∧ pw.isEmpty = false ∧
        (fun _ : String => true) pw = true) ∧
    (AuthenticationManager.AuthSettings.biometricEnabled
        { hasPassword := true, biometricEnabled := true, twoFactorEnabled := true } = true →
      true = true ∧ true = true) ∧
    (AuthenticationManager.AuthSettings.twoFactorEnabled
        { hasPassword := true, biometricEnabled := true, twoFactorEnabled := true } = true →
      (∃ code, (some "123456" : Option String) = some code ∧ code.isEmpty = false ∧
        (fun _ : String => fun _ : Option String => true) code (some "hunter2") = true) ∨
      (AuthenticationManager.truthy (some "123456") = false ∧
        ∃ rc, (none : Option String) = some rc ∧ rc.isEmpty = false ∧
          (fun _ : String => fun _ : Option String => false) rc (some "hunter2") = true)) :=
  (claim_C10 (fun _ => true) true (fun _ _ => true) (fun _ _ => false)
    { hasPassword := true, biometricEnabled := true, twoFactorEnabled := true }
    { password := some "hunter2", requestBiometric := true,
      twoFactorCode := some "123456", recoveryCode := none }).1 (by decide)

end SecureVault
